import Mathlib

/-!
Shallow embedding of `assignments/assignments/doctype/customer/customer.py`.

The source module exposes three operations on a `Customer` document that owns
three ordered child collections (emails, phone numbers, addresses):

* `create_customer` builds a fresh document from a payload, appending one child
  record per payload entry after per-entry required-field checks, then inserts
  it (the framework runs `Customer.validate` during insert).
* `update_customer` reconciles each child collection against the payload list:
  it builds a Python dict keyed by the identity of each child type
  (`email_address`, `phone_number`, `(address_line, city, pincode)`), updates
  the mutable fields of matched existing records in place, appends new records
  for unmatched payload keys, and removes existing records whose key is absent
  from the payload dict, then saves (the framework runs `Customer.validate`
  during save).
* `manage_customer` dispatches on the HTTP verb: POST creates, PUT updates,
  anything else raises `ValidationError`.

Embedding conventions:

* A Python dict is an association list in key first-insertion order whose
  values are overwritten in place on key collision (`dictInsert`), exactly the
  iteration-order/last-write-wins semantics of CPython dicts.
* Payload values read with `payload.get(field)` are `Option` values; `None`
  (a missing field) is a legitimate dict key, as in Python.
* `cint(x.get(field, 0))` on payload values is modelled by `cint` below.
* Python object identity of the persisted child records is modelled by the
  record's position in the collection list (`idxList`): the dict built over an
  existing collection maps each key to the record object (here: the index) of
  the *last* occurrence of that key, in-place mutation updates exactly that
  record, and `customer_doc.remove` removes exactly that record.  The source
  runs the update/append phase before the deletion phase; the two phases touch
  disjoint records (updated records have keys in the payload dict, deleted
  records have keys outside it, appended records are never in the pre-built
  existing dict), so a single indexed pass is equivalent.
* The external validators `validate_email_address` and `validate_phone_number`
  (framework utilities, not part of this repository) are parameters of the
  embedding.
* Errors are values of `Err`; `frappe.throw` with its default exception class
  is `Err.ValidationError`, `frappe.throw(_, DoesNotExistError)` is
  `Err.DoesNotExistError`.  The `except` blocks of the source re-wrap the
  user-facing message but preserve the error kind, which is all the claims
  refer to; messages below are the ones raised at the point of detection.
* The persistence layer is an association list from customer name to customer
  state, committed only when an operation returns `Except.ok`.
-/

/-- Error taxonomy of the source module: `ValidationError` for every
`frappe.throw` with the default exception class, `DoesNotExistError` for the
missing-customer check in `update_customer`. -/
inductive Err where
  | ValidationError : String → Err
  | DoesNotExistError : String → Err
deriving DecidableEq, Repr

/-- Python truthiness of an optional string: `None` and the empty string are
falsy, every other string is truthy. -/
def truthy : Option String → Bool
  | none => false
  | some s => !(s == "")

/-- Models `cint(x.get(field, 0))` on a payload field: a missing value defaults
to `0`, a present integer is returned unchanged. -/
def cint (v : Option Int) : Int :=
  v.getD 0

/-- One entry of the `emails` payload list, holding the fields the source reads
with `.get`. -/
structure EmailInput where
  email_address : Option String
  is_primary : Option Int
deriving DecidableEq, Repr

/-- One entry of the `phone_numbers` payload list. -/
structure PhoneInput where
  phone_number : Option String
  is_primary : Option Int
deriving DecidableEq, Repr

/-- One entry of the `addresses` payload list. -/
structure AddressInput where
  address_line : Option String
  city : Option String
  state : Option String
  country : Option String
  pincode : Option String
deriving DecidableEq, Repr

/-- A persisted `Customer Email` child record. -/
structure EmailRecord where
  doctype : String
  email : Option String
  is_primary : Int
deriving DecidableEq, Repr

/-- A persisted `Customer Phone` child record. -/
structure PhoneRecord where
  doctype : String
  phone_number : Option String
  is_primary : Int
deriving DecidableEq, Repr

/-- A persisted address child record. -/
structure AddressRecord where
  doctype : String
  address_line : Option String
  city : Option String
  state : Option String
  country : Option String
  pincode : Option String
deriving DecidableEq, Repr

/-- The `Customer` document: top-level attributes plus the three owned child
collections `email`, `phone_number`, `address`. -/
structure CustomerState where
  customer_name : Option String
  salutation : Option String
  sales_person : Option String
  email : List EmailRecord
  phone_number : List PhoneRecord
  address : List AddressRecord
deriving DecidableEq, Repr

/-- The request payload: every field the source reads with `payload.get`.  A
child list that the payload omits is `none`; the source defaults it to `[]`. -/
structure Payload where
  customer_name : Option String
  salutation : Option String
  sales_person : Option String
  emails : Option (List EmailInput)
  phone_numbers : Option (List PhoneInput)
  addresses : Option (List AddressInput)
deriving DecidableEq, Repr

/-- The persistence store: customer name to customer state. -/
abbrev CustomerDB := List (String × CustomerState)

section Dict

variable {K : Type} {α : Type} {β : Type} [DecidableEq K]

/-- Lookup in an association list (first entry with the given key; association
lists built by `dictInsert` have distinct keys, so the entry is unique). -/
def alookup (k : K) : List (K × α) → Option α
  | [] => none
  | kv :: d => if kv.1 = k then some kv.2 else alookup k d

/-- Insertion into an association list with Python-dict semantics: an existing
key keeps its position and its value is overwritten, a new key is appended. -/
def dictInsert (k : K) (v : α) : List (K × α) → List (K × α)
  | [] => [(k, v)]
  | kv :: d => if kv.1 = k then (k, v) :: d else kv :: dictInsert k v d

/-- Models a Python dict comprehension `{key(x): x for x in xs}`. -/
def buildDict (key : α → K) (xs : List α) : List (K × α) :=
  xs.foldl (fun d x => dictInsert (key x) x d) []

/-- Pairs each element of a list with its position, starting at `n`; stands for
the object identity of the records of a persisted child collection. -/
def idxList (n : Nat) : List β → List (Nat × β)
  | [] => []
  | b :: bs => (n, b) :: idxList (n + 1) bs

/-- Two association lists that agree everywhere except possibly at the value
stored under key `k`; the state of the two payload dicts while they still
differ in the value contributed by an earlier duplicate entry. -/
def SameExceptAt (k : K) (d₁ d₂ : List (K × α)) : Prop :=
  d₁ = d₂ ∨ ∃ l v₁ v₂ r, d₁ = l ++ (k, v₁) :: r ∧ d₂ = l ++ (k, v₂) :: r ∧ k ∉ l.map Prod.fst

/-- The reconciliation loop of `update_customer`, parameterized by the identity
key of the payload entries (`keyD`), the identity key of the persisted records
(`keyE`), the in-place update of a matched record's mutable fields (`upd`) and
the construction of a new record from a payload entry (`mk`).

`dMap` is the payload dict, `eMap` the dict over the existing collection; a
record is the dict representative of its key exactly when its index is the one
stored in `eMap`.  A representative whose key is in the payload dict is updated
in place, a representative whose key is absent is removed, and a
non-representative record (an earlier duplicate of a key) is never touched by
either loop of the source.  New records for payload keys absent from `eMap`
are appended at the end, in payload-dict order. -/
def reconcile (keyD : α → K) (keyE : β → K) (upd : α → β → β) (mk : α → β)
    (desired : List α) (existing : List β) : List β :=
  let dMap := buildDict keyD desired
  let eMap := buildDict (fun p => keyE p.2) (idxList 0 existing)
  let processed := (idxList 0 existing).filterMap (fun p =>
    match alookup (keyE p.2) eMap with
    | some q =>
        if q.1 = p.1 then
          match alookup (keyE p.2) dMap with
          | some d => some (upd d p.2)
          | none => none
        else some p.2
    | none => some p.2)
  let appended := dMap.filterMap (fun kd =>
    match alookup kd.1 eMap with
    | some _ => none
    | none => some (mk kd.2))
  processed ++ appended

end Dict

/-- The new `Customer Email` child record appended by `update_customer` for an
unmatched payload entry. -/
def mkUpdateEmailRecord (e : EmailInput) : EmailRecord :=
  { doctype := "Customer Email", email := e.email_address, is_primary := cint e.is_primary }

/-- The in-place mutation of a matched email record: only `is_primary` is
assigned. -/
def updEmailRecord (e : EmailInput) (r : EmailRecord) : EmailRecord :=
  { r with is_primary := cint e.is_primary }

/-- The new `Customer Phone` child record appended by `update_customer`. -/
def mkUpdatePhoneRecord (p : PhoneInput) : PhoneRecord :=
  { doctype := "Customer Phone", phone_number := p.phone_number, is_primary := cint p.is_primary }

/-- The in-place mutation of a matched phone record: only `is_primary` is
assigned. -/
def updPhoneRecord (p : PhoneInput) (r : PhoneRecord) : PhoneRecord :=
  { r with is_primary := cint p.is_primary }

/-- The identity key of an address payload entry:
`(addr.get("address_line"), addr.get("city"), addr.get("pincode"))`. -/
def addressInputKey (a : AddressInput) : Option String × Option String × Option String :=
  (a.address_line, a.city, a.pincode)

/-- The identity key of a persisted address record. -/
def addressRecordKey (r : AddressRecord) : Option String × Option String × Option String :=
  (r.address_line, r.city, r.pincode)

/-- The new address child record appended by `update_customer`; note the source
tags it with doctype `"Address"`. -/
def mkUpdateAddressRecord (a : AddressInput) : AddressRecord :=
  { doctype := "Address", address_line := a.address_line, city := a.city,
    state := a.state, country := a.country, pincode := a.pincode }

/-- The address child record appended by `create_customer`; the source tags it
with doctype `"Customer Address"`. -/
def mkCreateAddressRecord (a : AddressInput) : AddressRecord :=
  { doctype := "Customer Address", address_line := a.address_line, city := a.city,
    state := a.state, country := a.country, pincode := a.pincode }

/-- The in-place mutation of a matched address record: only `state` and
`country` are assigned. -/
def updAddressRecord (a : AddressInput) (r : AddressRecord) : AddressRecord :=
  { r with state := a.state, country := a.country }

/-- The email reconciliation block of `update_customer` (lines 139-157). -/
def reconcileEmails (desired : List EmailInput) (existing : List EmailRecord) :
    List EmailRecord :=
  reconcile EmailInput.email_address EmailRecord.email updEmailRecord mkUpdateEmailRecord
    desired existing

/-- The phone reconciliation block of `update_customer` (lines 160-178). -/
def reconcilePhones (desired : List PhoneInput) (existing : List PhoneRecord) :
    List PhoneRecord :=
  reconcile PhoneInput.phone_number PhoneRecord.phone_number updPhoneRecord mkUpdatePhoneRecord
    desired existing

/-- The address reconciliation block of `update_customer` (lines 181-203). -/
def reconcileAddresses (desired : List AddressInput) (existing : List AddressRecord) :
    List AddressRecord :=
  reconcile addressInputKey addressRecordKey updAddressRecord mkUpdateAddressRecord
    desired existing

/-- The email loop of `Customer.validate`: throws on the first record the
external email validator rejects. -/
def validateEmails (vE : Option String → Bool) : List EmailRecord → Except Err Unit
  | [] => Except.ok ()
  | e :: rest =>
      if vE e.email then validateEmails vE rest
      else Except.error (Err.ValidationError "Invalid email address")

/-- The phone loop of `Customer.validate`. -/
def validatePhones (vP : Option String → Bool) : List PhoneRecord → Except Err Unit
  | [] => Except.ok ()
  | p :: rest =>
      if vP p.phone_number then validatePhones vP rest
      else Except.error (Err.ValidationError "Invalid phone number")

/-- The address loop of `Customer.validate`: each of the five fields must be
truthy, checked in source order. -/
def validateAddresses : List AddressRecord → Except Err Unit
  | [] => Except.ok ()
  | a :: rest =>
      if !truthy a.address_line then Except.error (Err.ValidationError "Address line is required")
      else if !truthy a.city then Except.error (Err.ValidationError "City is required")
      else if !truthy a.state then Except.error (Err.ValidationError "State is required")
      else if !truthy a.country then Except.error (Err.ValidationError "Country is required")
      else if !truthy a.pincode then Except.error (Err.ValidationError "Pincode is required")
      else validateAddresses rest

/-- `Customer.validate` (customer.py lines 27-49), run by the framework during
insert and save: emails, then phones, then addresses. -/
def Customer.validate (vE vP : Option String → Bool) (c : CustomerState) : Except Err Unit :=
  match validateEmails vE c.email with
  | Except.error e => Except.error e
  | Except.ok _ =>
      match validatePhones vP c.phone_number with
      | Except.error e => Except.error e
      | Except.ok _ => validateAddresses c.address

/-- The email loop of `create_customer` (lines 70-80): a falsy `email_address`
throws, otherwise a `Customer Email` record is appended. -/
def buildCreateEmails : List EmailInput → Except Err (List EmailRecord)
  | [] => Except.ok []
  | e :: rest =>
      if truthy e.email_address then
        match buildCreateEmails rest with
        | Except.ok l =>
            Except.ok ({ doctype := "Customer Email", email := e.email_address,
                         is_primary := cint e.is_primary } :: l)
        | Except.error err => Except.error err
      else Except.error (Err.ValidationError "Email address is required for each entry in emails")

/-- The phone loop of `create_customer` (lines 83-93). -/
def buildCreatePhones : List PhoneInput → Except Err (List PhoneRecord)
  | [] => Except.ok []
  | p :: rest =>
      if truthy p.phone_number then
        match buildCreatePhones rest with
        | Except.ok l =>
            Except.ok ({ doctype := "Customer Phone", phone_number := p.phone_number,
                         is_primary := cint p.is_primary } :: l)
        | Except.error err => Except.error err
      else
        Except.error (Err.ValidationError "Phone number is required for each entry in phone numbers")

/-- The address loop of `create_customer` (lines 96-108): only `address_line`,
`city` and `pincode` are checked here; `state` and `country` are checked later
by `Customer.validate` during insert. -/
def buildCreateAddresses : List AddressInput → Except Err (List AddressRecord)
  | [] => Except.ok []
  | a :: rest =>
      if truthy a.address_line && truthy a.city && truthy a.pincode then
        match buildCreateAddresses rest with
        | Except.ok l => Except.ok (mkCreateAddressRecord a :: l)
        | Except.error err => Except.error err
      else
        Except.error
          (Err.ValidationError "Address line, city, and pincode are required for each address entry")

/-- The document `create_customer` assembles before inserting: top-level
attributes from the payload, child collections from the per-entry appends. -/
def createdDoc (p : Payload) (es : List EmailRecord) (ps : List PhoneRecord)
    (as : List AddressRecord) : CustomerState :=
  { customer_name := p.customer_name, salutation := p.salutation,
    sales_person := p.sales_person, email := es, phone_number := ps, address := as }

/-- The customer document after `update_customer` has reconciled the three
child collections against the payload (an omitted list defaults to `[]`). -/
def reconciledState (p : Payload) (c : CustomerState) : CustomerState :=
  { c with
    email := reconcileEmails (p.emails.getD []) c.email,
    phone_number := reconcilePhones (p.phone_numbers.getD []) c.phone_number,
    address := reconcileAddresses (p.addresses.getD []) c.address }

/-- Overwrites the value stored under key `n`; models saving the mutated
document back to the store. -/
def dbSet (n : String) (c : CustomerState) (db : CustomerDB) : CustomerDB :=
  db.map (fun kv => if kv.1 = n then (n, c) else kv)

/-- `create_customer` (customer.py lines 52-127): requires a truthy
`customer_name`, builds the child collections with per-entry checks, runs
`Customer.validate` (triggered by `insert`), fails on a duplicate name
(`DuplicateEntryError`, surfaced by the source's handlers as a
`ValidationError`-kind failure), and otherwise commits the new document. -/
def create_customer (vE vP : Option String → Bool) (db : CustomerDB) (p : Payload) :
    Except Err (CustomerDB × String) :=
  if truthy p.customer_name then
    match buildCreateEmails (p.emails.getD []) with
    | Except.error e => Except.error e
    | Except.ok es =>
        match buildCreatePhones (p.phone_numbers.getD []) with
        | Except.error e => Except.error e
        | Except.ok ps =>
            match buildCreateAddresses (p.addresses.getD []) with
            | Except.error e => Except.error e
            | Except.ok as =>
                match Customer.validate vE vP (createdDoc p es ps as) with
                | Except.error e => Except.error e
                | Except.ok _ =>
                    match p.customer_name with
                    | none => Except.error (Err.ValidationError "Customer name is mandatory")
                    | some n =>
                        match alookup n db with
                        | some _ => Except.error (Err.ValidationError "Customer already existis")
                        | none =>
                            Except.ok (db ++ [(n, createdDoc p es ps as)],
                              "Customer created successfully")
  else Except.error (Err.ValidationError "Customer name is mandatory")

/-- `update_customer` (customer.py lines 130-223): fails with
`DoesNotExistError` when no customer with the payload's `customer_name` is
persisted, otherwise reconciles the three child collections (an omitted list
defaults to `[]`), runs `Customer.validate` (triggered by `save`) and commits
the mutated document. -/
def update_customer (vE vP : Option String → Bool) (db : CustomerDB) (p : Payload) :
    Except Err (CustomerDB × String) :=
  match p.customer_name with
  | none => Except.error (Err.DoesNotExistError "Customer does not exist")
  | some n =>
      match alookup n db with
      | none => Except.error (Err.DoesNotExistError "Customer does not exist")
      | some c =>
          match Customer.validate vE vP (reconciledState p c) with
          | Except.error e => Except.error e
          | Except.ok _ =>
              Except.ok (dbSet n (reconciledState p c) db, "Customer updated successfully")

/-- The persisted store after an attempted update: the committed store on
success, the unchanged store on failure (the transaction never commits). -/
def runUpdate (vE vP : Option String → Bool) (p : Payload) (db : CustomerDB) : CustomerDB :=
  match update_customer vE vP db p with
  | Except.ok pr => pr.1
  | Except.error _ => db

/-- `manage_customer` (customer.py lines 225-237): parsed payload required,
POST creates, PUT updates, any other verb throws `ValidationError`. -/
def manage_customer (vE vP : Option String → Bool) (db : CustomerDB) (method : String)
    (data : Option Payload) : Except Err (CustomerDB × String) :=
  match data with
  | none => Except.error (Err.ValidationError "Data is required")
  | some p =>
      if method == "POST" then create_customer vE vP db p
      else if method == "PUT" then update_customer vE vP db p
      else Except.error (Err.ValidationError "Invalid method")

/-- The identity keys of each child collection are pairwise distinct; the
uniqueness invariant the specification's data model declares for persisted
customers. -/
def distinctKeys (c : CustomerState) : Prop :=
  (c.email.map EmailRecord.email).Nodup ∧
  (c.phone_number.map PhoneRecord.phone_number).Nodup ∧
  (c.address.map addressRecordKey).Nodup

instance (c : CustomerState) : Decidable (distinctKeys c) := by
  unfold distinctKeys; infer_instance

/-- Concrete stand-in for the external format validators: accepts everything
(the claims under test do not depend on the validators' verdicts). -/
def vTrue : Option String → Bool := fun _ => true

/-- A persisted email record from the repository's sample payload. -/
def johnEmail : EmailRecord :=
  { doctype := "Customer Email", email := some "john@gmail.com", is_primary := 1 }

/-- A second persisted record carrying the same identity key as `johnEmail`;
reachable because `create_customer` appends one record per payload entry
without de-duplication. -/
def johnEmailDup : EmailRecord :=
  { doctype := "Customer Email", email := some "john@gmail.com", is_primary := 0 }

/-- A persisted phone record from the repository's sample payload. -/
def johnPhone : PhoneRecord :=
  { doctype := "Customer Phone", phone_number := some "123456789", is_primary := 1 }

/-- A persisted address record from the repository's sample payload. -/
def johnAddress : AddressRecord :=
  { doctype := "Customer Address", address_line := some "123, Main Street",
    city := some "New York", state := some "New York", country := some "USA",
    pincode := some "10001" }

/-- A persisted customer whose child collections all have distinct identity
keys. -/
def johnState : CustomerState :=
  { customer_name := some "John Doe", salutation := some "Mr",
    sales_person := some "Jane Doe", email := [johnEmail], phone_number := [johnPhone],
    address := [johnAddress] }

/-- A store holding the well-formed customer. -/
def johnDB : CustomerDB := [("John Doe", johnState)]

/-- A persisted customer whose email collection holds two records with the
same identity key. -/
def dupCustomer : CustomerState :=
  { customer_name := some "John Doe", salutation := none, sales_person := none,
    email := [johnEmail, johnEmailDup], phone_number := [], address := [] }

/-- A store holding the duplicate-keyed customer. -/
def dupDB : CustomerDB := [("John Doe", dupCustomer)]

/-- The duplicate-keyed customer after one update with an empty desired email
list: only the dict representative (the last duplicate) was removed. -/
def dupCustomerAfterOnce : CustomerState :=
  { customer_name := some "John Doe", salutation := none, sales_person := none,
    email := [johnEmail], phone_number := [], address := [] }

/-- An update payload that supplies all three child lists explicitly empty. -/
def emptyListsPayload : Payload :=
  { customer_name := some "John Doe", salutation := none, sales_person := none,
    emails := some [], phone_numbers := some [], addresses := some [] }

/-- An update payload that omits all three child lists. -/
def omittedListsPayload : Payload :=
  { customer_name := some "John Doe", salutation := none, sales_person := none,
    emails := none, phone_numbers := none, addresses := none }

/-- The update payload of the repository's own update test: a fresh email, the
existing phone re-supplied, the address list empty. -/
def updPayload : Payload :=
  { customer_name := some "John Doe", salutation := none, sales_person := none,
    emails := some [{ email_address := some "john.updated@gmail.com", is_primary := some 1 }],
    phone_numbers := some [{ phone_number := some "123456789", is_primary := some 1 }],
    addresses := some [] }

/-- `johnState` after `updPayload`: old email deleted, new one appended, phone
kept, address deleted. -/
def johnAfterUpdate : CustomerState :=
  { customer_name := some "John Doe", salutation := some "Mr",
    sales_person := some "Jane Doe",
    email := [{ doctype := "Customer Email", email := some "john.updated@gmail.com",
                is_primary := 1 }],
    phone_number := [johnPhone], address := [] }

/-- `johnState` after an update whose payload omits every child list. -/
def johnEmptied : CustomerState :=
  { customer_name := some "John Doe", salutation := some "Mr",
    sales_person := some "Jane Doe", email := [], phone_number := [], address := [] }

/-- An address payload entry with `state` missing. -/
def missingStateAddress : AddressInput :=
  { address_line := some "456, Main Street", city := some "Los Angeles", state := none,
    country := some "USA", pincode := some "90001" }

/-- A create payload containing an address entry with a missing `state`. -/
def badAddressPayload : Payload :=
  { customer_name := some "Jane Roe", salutation := none, sales_person := none,
    emails := some [], phone_numbers := some [],
    addresses := some [missingStateAddress] }

/-- An update payload naming a customer that is not persisted. -/
def ghostPayload : Payload :=
  { customer_name := some "Ghost", salutation := none, sales_person := none,
    emails := some [], phone_numbers := some [], addresses := some [] }

/-- An address payload entry with every field present (the repository's sample
data). -/
def sampleAddressInput : AddressInput :=
  { address_line := some "123, Main Street", city := some "New York",
    state := some "New York", country := some "USA", pincode := some "10001" }

section DictLemmas

variable {K : Type} {α : Type} {β : Type} [DecidableEq K]

theorem alookup_dictInsert_self (k : K) (v : α) (d : List (K × α)) :
    alookup k (dictInsert k v d) = some v := by
  induction d with
  | nil => simp [dictInsert, alookup]
  | cons kv d ih =>
      by_cases h : kv.1 = k
      · simp [dictInsert, h, alookup]
      · simp [dictInsert, h, alookup, ih]

theorem alookup_dictInsert_ne {j k : K} (h : j ≠ k) (v : α) (d : List (K × α)) :
    alookup j (dictInsert k v d) = alookup j d := by
  have hne : ¬(k = j) := fun hh => h hh.symm
  induction d with
  | nil => simp [dictInsert, alookup, hne]
  | cons kv d ih =>
      by_cases hk : kv.1 = k
      · subst hk
        simp [dictInsert, alookup, hne]
      · simp only [dictInsert, if_neg hk]
        by_cases hj : kv.1 = j
        · simp [alookup, hj]
        · simp [alookup, hj, ih]

theorem mem_keys_dictInsert {j k : K} {v : α} {d : List (K × α)} :
    j ∈ (dictInsert k v d).map Prod.fst ↔ j = k ∨ j ∈ d.map Prod.fst := by
  induction d with
  | nil => simp [dictInsert]
  | cons kv d ih =>
      by_cases hk : kv.1 = k
      · subst hk
        simp [dictInsert]
      · simp only [dictInsert, if_neg hk, List.map_cons, List.mem_cons, ih]
        tauto

theorem keys_dictInsert_of_mem {k : K} {d : List (K × α)} (h : k ∈ d.map Prod.fst) (v : α) :
    (dictInsert k v d).map Prod.fst = d.map Prod.fst := by
  induction d with
  | nil => simp at h
  | cons kv d ih =>
      by_cases hk : kv.1 = k
      · simp [dictInsert, hk]
      · simp only [List.map_cons, List.mem_cons] at h
        rcases h with h | h
        · exact absurd h.symm hk
        · simp [dictInsert, hk, ih h]

theorem keys_dictInsert_of_not_mem {k : K} {d : List (K × α)} (h : k ∉ d.map Prod.fst) (v : α) :
    (dictInsert k v d).map Prod.fst = d.map Prod.fst ++ [k] := by
  induction d with
  | nil => simp [dictInsert]
  | cons kv d ih =>
      simp only [List.map_cons, List.mem_cons] at h
      push_neg at h
      have hk : kv.1 ≠ k := fun hh => h.1 hh.symm
      simp [dictInsert, hk, ih h.2]

theorem nodup_keys_dictInsert {k : K} {v : α} {d : List (K × α)}
    (h : (d.map Prod.fst).Nodup) : ((dictInsert k v d).map Prod.fst).Nodup := by
  by_cases hm : k ∈ d.map Prod.fst
  · rw [keys_dictInsert_of_mem hm]; exact h
  · rw [keys_dictInsert_of_not_mem hm]
    simp only [List.nodup_append, List.nodup_cons, List.not_mem_nil, List.nodup_nil]
    exact ⟨h, by simp, by simpa [List.disjoint_singleton] using hm⟩

theorem alookup_eq_none_iff {k : K} {d : List (K × α)} :
    alookup k d = none ↔ k ∉ d.map Prod.fst := by
  induction d with
  | nil => simp [alookup]
  | cons kv d ih =>
      by_cases hk : kv.1 = k
      · simp [alookup, hk]
      · simp only [alookup, if_neg hk, List.map_cons, List.mem_cons, ih]
        constructor
        · rintro h ⟨rfl | hm⟩
          · exact hk rfl
          · exact h ‹_›
        · intro h
          intro hm
          exact h (Or.inr hm)

theorem alookup_isSome_iff {k : K} {d : List (K × α)} :
    (alookup k d).isSome ↔ k ∈ d.map Prod.fst := by
  rw [← Decidable.not_not (p := k ∈ d.map Prod.fst), ← alookup_eq_none_iff]
  cases h : alookup k d <;> simp [h]

theorem alookup_mem {k : K} {v : α} {d : List (K × α)} (h : alookup k d = some v) :
    (k, v) ∈ d := by
  induction d with
  | nil => simp [alookup] at h
  | cons kv d ih =>
      by_cases hk : kv.1 = k
      · simp only [alookup, if_pos hk] at h
        obtain ⟨a, b⟩ := kv
        simp only at hk
        subst hk
        simp only [Option.some.injEq] at h
        subst h
        exact List.mem_cons_self _ _
      · simp only [alookup, if_neg hk] at h
        exact List.mem_cons_of_mem _ (ih h)

theorem alookup_of_mem_nodup {k : K} {v : α} {d : List (K × α)}
    (hnd : (d.map Prod.fst).Nodup) (h : (k, v) ∈ d) : alookup k d = some v := by
  induction d with
  | nil => simp at h
  | cons kv d ih =>
      simp only [List.map_cons, List.nodup_cons] at hnd
      rcases List.mem_cons.mp h with rfl | hm
      · simp [alookup]
      · have hk : kv.1 ≠ k := by
          intro hh
          exact hnd.1 (hh ▸ List.mem_map_of_mem Prod.fst hm)
        simp [alookup, hk, ih hnd.2 hm]

end DictLemmas

section BuildDictLemmas

variable {K : Type} {α : Type} {β : Type} [DecidableEq K]

theorem foldl_alookup_not_mem (key : α → K) {k : K} {xs : List α}
    (h : k ∉ xs.map key) (d0 : List (K × α)) :
    alookup k (xs.foldl (fun d x => dictInsert (key x) x d) d0) = alookup k d0 := by
  induction xs generalizing d0 with
  | nil => rfl
  | cons x xs ih =>
      simp only [List.map_cons, List.mem_cons] at h
      push_neg at h
      simp only [List.foldl_cons]
      rw [ih h.2, alookup_dictInsert_ne h.1]

theorem mem_keys_foldl (key : α → K) {j : K} (xs : List α) (d0 : List (K × α)) :
    j ∈ (xs.foldl (fun d x => dictInsert (key x) x d) d0).map Prod.fst ↔
      j ∈ d0.map Prod.fst ∨ j ∈ xs.map key := by
  induction xs generalizing d0 with
  | nil => simp
  | cons x xs ih =>
      simp only [List.foldl_cons, ih, mem_keys_dictInsert, List.map_cons, List.mem_cons]
      tauto

theorem mem_keys_buildDict (key : α → K) {j : K} (xs : List α) :
    j ∈ (buildDict key xs).map Prod.fst ↔ j ∈ xs.map key := by
  unfold buildDict
  rw [mem_keys_foldl]
  simp

theorem nodup_keys_foldl (key : α → K) (xs : List α) {d0 : List (K × α)}
    (h : (d0.map Prod.fst).Nodup) :
    ((xs.foldl (fun d x => dictInsert (key x) x d) d0).map Prod.fst).Nodup := by
  induction xs generalizing d0 with
  | nil => exact h
  | cons x xs ih => exact ih (nodup_keys_dictInsert h)

theorem nodup_keys_buildDict (key : α → K) (xs : List α) :
    ((buildDict key xs).map Prod.fst).Nodup :=
  nodup_keys_foldl key xs (by simp)

theorem mem_dictInsert {kv : K × α} {k : K} {v : α} {d : List (K × α)}
    (h : kv ∈ dictInsert k v d) : kv = (k, v) ∨ kv ∈ d := by
  induction d with
  | nil => simpa [dictInsert] using h
  | cons kv' d ih =>
      by_cases hk : kv'.1 = k
      · simp only [dictInsert, if_pos hk, List.mem_cons] at h
        rcases h with rfl | h
        · exact Or.inl rfl
        · exact Or.inr (List.mem_cons_of_mem _ h)
      · simp only [dictInsert, if_neg hk, List.mem_cons] at h
        rcases h with rfl | h
        · exact Or.inr (List.mem_cons_self _ _)
        · rcases ih h with h | h
          · exact Or.inl h
          · exact Or.inr (List.mem_cons_of_mem _ h)

theorem mem_foldl_entries (key : α → K) {kv : K × α} {xs : List α} {d0 : List (K × α)}
    (h : kv ∈ xs.foldl (fun d x => dictInsert (key x) x d) d0) :
    kv ∈ d0 ∨ (kv.1 = key kv.2 ∧ kv.2 ∈ xs) := by
  induction xs generalizing d0 with
  | nil => exact Or.inl h
  | cons x xs ih =>
      simp only [List.foldl_cons] at h
      rcases ih h with h' | h'
      · rcases mem_dictInsert h' with rfl | h''
        · exact Or.inr ⟨rfl, List.mem_cons_self _ _⟩
        · exact Or.inl h''
      · exact Or.inr ⟨h'.1, List.mem_cons_of_mem _ h'.2⟩

theorem mem_buildDict_entries (key : α → K) {kv : K × α} {xs : List α}
    (h : kv ∈ buildDict key xs) : kv.1 = key kv.2 ∧ kv.2 ∈ xs := by
  rcases mem_foldl_entries key h with h' | h'
  · simp at h'
  · exact h'

theorem foldl_alookup_of_nodup (key : α → K) {xs : List α} (hnd : (xs.map key).Nodup)
    {x : α} (hx : x ∈ xs) (d0 : List (K × α)) :
    alookup (key x) (xs.foldl (fun d x => dictInsert (key x) x d) d0) = some x := by
  induction xs generalizing d0 with
  | nil => simp at hx
  | cons y ys ih =>
      simp only [List.map_cons, List.nodup_cons] at hnd
      rcases List.mem_cons.mp hx with rfl | hm
      · simp only [List.foldl_cons]
        rw [foldl_alookup_not_mem key hnd.1, alookup_dictInsert_self]
      · simp only [List.foldl_cons]
        exact ih hnd.2 hm _

theorem buildDict_alookup_of_nodup (key : α → K) {xs : List α} (hnd : (xs.map key).Nodup)
    {x : α} (hx : x ∈ xs) : alookup (key x) (buildDict key xs) = some x :=
  foldl_alookup_of_nodup key hnd hx []

theorem idxList_map_snd (n : Nat) (l : List β) : (idxList n l).map Prod.snd = l := by
  induction l generalizing n with
  | nil => rfl
  | cons b bs ih => simp [idxList, ih]

theorem idxList_filterMap_snd {γ : Type} (g : β → Option γ) (n : Nat) (l : List β) :
    (idxList n l).filterMap (fun p => g p.2) = l.filterMap g := by
  induction l generalizing n with
  | nil => rfl
  | cons b bs ih =>
      cases h : g b <;> simp [idxList, List.filterMap_cons, h, ih]

omit [DecidableEq K] in
theorem idxList_map_key (keyE : β → K) (n : Nat) (l : List β) :
    (idxList n l).map (fun p => keyE p.2) = l.map keyE := by
  conv_rhs => rw [← idxList_map_snd n l]
  rw [List.map_map]
  rfl

theorem idxList_alookup_self (keyE : β → K) {l : List β} (hnd : (l.map keyE).Nodup)
    {p : Nat × β} {n : Nat} (hp : p ∈ idxList n l) :
    alookup (keyE p.2) (buildDict (fun q => keyE q.2) (idxList n l)) = some p := by
  have hnd' : ((idxList n l).map (fun q => keyE q.2)).Nodup := by
    rw [idxList_map_key]
    exact hnd
  exact buildDict_alookup_of_nodup _ hnd' hp

end BuildDictLemmas

section ReconcileLemmas

variable {K : Type} {α : Type} {β : Type} [DecidableEq K]

theorem reconcile_processed_of_nodup (keyD : α → K) (keyE : β → K) (upd : α → β → β)
    (desired : List α) {existing : List β} (hnd : (existing.map keyE).Nodup) :
    ((idxList 0 existing).filterMap (fun p =>
      match alookup (keyE p.2) (buildDict (fun q => keyE q.2) (idxList 0 existing)) with
      | some q =>
          if q.1 = p.1 then
            match alookup (keyE p.2) (buildDict keyD desired) with
            | some d => some (upd d p.2)
            | none => none
          else some p.2
      | none => some p.2))
    = existing.filterMap (fun r =>
        match alookup (keyE r) (buildDict keyD desired) with
        | some d => some (upd d r)
        | none => none) := by
  rw [← idxList_filterMap_snd (fun r =>
        match alookup (keyE r) (buildDict keyD desired) with
        | some d => some (upd d r)
        | none => none) 0 existing]
  apply List.filterMap_congr
  intro p hp
  rw [idxList_alookup_self keyE hnd hp]
  simp

theorem reconcile_appended_eq (keyD : α → K) (keyE : β → K) (mk : α → β)
    (desired : List α) (existing : List β) :
    ((buildDict keyD desired).filterMap (fun kd =>
      match alookup kd.1 (buildDict (fun q => keyE q.2) (idxList 0 existing)) with
      | some _ => none
      | none => some (mk kd.2)))
    = (buildDict keyD desired).filterMap (fun kd =>
        if kd.1 ∈ existing.map keyE then none else some (mk kd.2)) := by
  apply List.filterMap_congr
  intro kd _
  by_cases hm : kd.1 ∈ existing.map keyE
  · have hmem : kd.1 ∈ (idxList 0 existing).map (fun q => keyE q.2) := by
      rw [idxList_map_key]
      exact hm
    have hs : (alookup kd.1 (buildDict (fun q => keyE q.2) (idxList 0 existing))).isSome := by
      rw [alookup_isSome_iff, mem_keys_buildDict]
      exact hmem
    cases hlk : alookup kd.1 (buildDict (fun q => keyE q.2) (idxList 0 existing)) with
    | none => rw [hlk] at hs; simp at hs
    | some q => simp [hlk, hm]
  · have hn : alookup kd.1 (buildDict (fun q => keyE q.2) (idxList 0 existing)) = none := by
      rw [alookup_eq_none_iff, mem_keys_buildDict, idxList_map_key]
      exact hm
    simp [hn, hm]

theorem reconcile_eq_of_nodup (keyD : α → K) (keyE : β → K) (upd : α → β → β) (mk : α → β)
    (desired : List α) {existing : List β} (hnd : (existing.map keyE).Nodup) :
    reconcile keyD keyE upd mk desired existing =
      existing.filterMap (fun r =>
        match alookup (keyE r) (buildDict keyD desired) with
        | some d => some (upd d r)
        | none => none)
      ++ (buildDict keyD desired).filterMap (fun kd =>
        if kd.1 ∈ existing.map keyE then none else some (mk kd.2)) := by
  show ((idxList 0 existing).filterMap (fun p =>
      match alookup (keyE p.2) (buildDict (fun q => keyE q.2) (idxList 0 existing)) with
      | some q =>
          if q.1 = p.1 then
            match alookup (keyE p.2) (buildDict keyD desired) with
            | some d => some (upd d p.2)
            | none => none
          else some p.2
      | none => some p.2))
    ++ ((buildDict keyD desired).filterMap (fun kd =>
      match alookup kd.1 (buildDict (fun q => keyE q.2) (idxList 0 existing)) with
      | some _ => none
      | none => some (mk kd.2))) = _
  rw [reconcile_processed_of_nodup keyD keyE upd desired hnd,
    reconcile_appended_eq keyD keyE mk desired existing]

theorem mem_keys_reconcile (keyD : α → K) (keyE : β → K) (upd : α → β → β) (mk : α → β)
    (hupdk : ∀ d r, keyE (upd d r) = keyE r) (hmkk : ∀ d, keyE (mk d) = keyD d)
    (desired : List α) {existing : List β} (hnd : (existing.map keyE).Nodup) (k : K) :
    k ∈ (reconcile keyD keyE upd mk desired existing).map keyE ↔
      k ∈ (buildDict keyD desired).map Prod.fst := by
  rw [reconcile_eq_of_nodup keyD keyE upd mk desired hnd]
  simp only [List.map_append, List.mem_append]
  constructor
  · rintro (h | h)
    · obtain ⟨r', hr', rfl⟩ := List.mem_map.mp h
      obtain ⟨r, _, heq⟩ := List.mem_filterMap.mp hr'
      cases hlk : alookup (keyE r) (buildDict keyD desired) with
      | none => rw [hlk] at heq; simp at heq
      | some d =>
          rw [hlk] at heq
          simp only [Option.some.injEq] at heq
          subst heq
          rw [hupdk]
          rw [← alookup_isSome_iff, hlk]
          rfl
    · obtain ⟨r', hr', rfl⟩ := List.mem_map.mp h
      obtain ⟨kd, hkd, heq⟩ := List.mem_filterMap.mp hr'
      by_cases hm : kd.1 ∈ existing.map keyE
      · simp [hm] at heq
      · simp only [hm, if_false] at heq
        simp only [Option.some.injEq] at heq
        subst heq
        rw [hmkk, ← (mem_buildDict_entries keyD hkd).1]
        exact List.mem_map_of_mem Prod.fst hkd
  · intro h
    by_cases hm : k ∈ existing.map keyE
    · left
      obtain ⟨r, hr, rfl⟩ := List.mem_map.mp hm
      have hs : (alookup (keyE r) (buildDict keyD desired)).isSome := by
        rw [alookup_isSome_iff]
        exact h
      cases hlk : alookup (keyE r) (buildDict keyD desired) with
      | none => rw [hlk] at hs; simp at hs
      | some d =>
          refine List.mem_map.mpr ⟨upd d r, List.mem_filterMap.mpr ⟨r, hr, ?_⟩, hupdk d r⟩
          rw [hlk]
    · right
      obtain ⟨kd, hkd, rfl⟩ := List.mem_map.mp h
      refine List.mem_map.mpr ⟨mk kd.2, List.mem_filterMap.mpr ⟨kd, hkd, ?_⟩, ?_⟩
      · simp [hm]
      · rw [hmkk, (mem_buildDict_entries keyD hkd).1]

end ReconcileLemmas

section ReconcileLemmas2

variable {K : Type} {α : Type} {β : Type} [DecidableEq K]

theorem map_filterMap_sublist {B C D : Type} (g : B → D) (gg : C → D) (f : B → Option C)
    (l : List B) (hf : ∀ r ∈ l, ∀ s, f r = some s → gg s = g r) :
    ((l.filterMap f).map gg).Sublist (l.map g) := by
  induction l with
  | nil => simp
  | cons b bs ih =>
      have ih' := ih (fun r hr s hs => hf r (List.mem_cons_of_mem _ hr) s hs)
      cases hfb : f b with
      | none =>
          simp only [List.filterMap_cons, hfb, List.map_cons]
          exact ih'.cons _
      | some s =>
          simp only [List.filterMap_cons, hfb, List.map_cons]
          rw [hf b (List.mem_cons_self _ _) s hfb]
          exact ih'.cons₂ _

theorem nodup_keys_reconcile (keyD : α → K) (keyE : β → K) (upd : α → β → β) (mk : α → β)
    (hupdk : ∀ d r, keyE (upd d r) = keyE r) (hmkk : ∀ d, keyE (mk d) = keyD d)
    (desired : List α) {existing : List β} (hnd : (existing.map keyE).Nodup) :
    ((reconcile keyD keyE upd mk desired existing).map keyE).Nodup := by
  rw [reconcile_eq_of_nodup keyD keyE upd mk desired hnd, List.map_append]
  have hf1 : ∀ r ∈ existing, ∀ s,
      (match alookup (keyE r) (buildDict keyD desired) with
        | some d => some (upd d r)
        | none => none) = some s → keyE s = keyE r := by
    intro r _ s hs
    cases hlk : alookup (keyE r) (buildDict keyD desired) with
    | none => rw [hlk] at hs; simp at hs
    | some d =>
        rw [hlk] at hs
        simp only [Option.some.injEq] at hs
        subst hs
        exact hupdk d r
  have hf2 : ∀ kd ∈ buildDict keyD desired, ∀ s,
      (if kd.1 ∈ existing.map keyE then none else some (mk kd.2)) = some s →
        keyE s = kd.1 := by
    intro kd hkd s hs
    by_cases hm : kd.1 ∈ existing.map keyE
    · simp [hm] at hs
    · simp only [hm, if_false, Option.some.injEq] at hs
      subst hs
      rw [hmkk, ← (mem_buildDict_entries keyD hkd).1]
  have h1 := map_filterMap_sublist keyE keyE
    (fun r => match alookup (keyE r) (buildDict keyD desired) with
      | some d => some (upd d r)
      | none => none) existing hf1
  have h2 := map_filterMap_sublist Prod.fst keyE
    (fun kd => if kd.1 ∈ existing.map keyE then none else some (mk kd.2))
    (buildDict keyD desired) hf2
  apply List.Nodup.append
  · exact List.Nodup.sublist h1 hnd
  · exact List.Nodup.sublist h2 (nodup_keys_buildDict keyD desired)
  · intro a ha hb
    have haE : a ∈ existing.map keyE := h1.subset ha
    obtain ⟨s, hsmem, rfl⟩ := List.mem_map.mp hb
    obtain ⟨kd, hkd, heq⟩ := List.mem_filterMap.mp hsmem
    by_cases hm : kd.1 ∈ existing.map keyE
    · simp [hm] at heq
    · simp only [hm, if_false, Option.some.injEq] at heq
      subst heq
      rw [hf2 kd hkd (mk kd.2) (by simp [hm])] at haE
      exact hm haE

theorem reconcile_matched_mem (keyD : α → K) (keyE : β → K) (upd : α → β → β) (mk : α → β)
    (desired : List α) {existing : List β} (hnd : (existing.map keyE).Nodup)
    {r : β} (hr : r ∈ existing) {d : α}
    (hd : alookup (keyE r) (buildDict keyD desired) = some d) :
    upd d r ∈ reconcile keyD keyE upd mk desired existing := by
  rw [reconcile_eq_of_nodup keyD keyE upd mk desired hnd]
  apply List.mem_append_left
  exact List.mem_filterMap.mpr ⟨r, hr, by rw [hd]⟩

theorem reconcile_nil_of_nodup (keyD : α → K) (keyE : β → K) (upd : α → β → β) (mk : α → β)
    {existing : List β} (hnd : (existing.map keyE).Nodup) :
    reconcile keyD keyE upd mk [] existing = [] := by
  rw [reconcile_eq_of_nodup keyD keyE upd mk [] hnd]
  simp [buildDict, alookup]

theorem reconcile_idem (keyD : α → K) (keyE : β → K) (upd : α → β → β) (mk : α → β)
    (hupdk : ∀ d r, keyE (upd d r) = keyE r) (hmkk : ∀ d, keyE (mk d) = keyD d)
    (hupd2 : ∀ d r, upd d (upd d r) = upd d r) (hmk2 : ∀ d, upd d (mk d) = mk d)
    (desired : List α) {existing : List β} (hnd : (existing.map keyE).Nodup) :
    reconcile keyD keyE upd mk desired (reconcile keyD keyE upd mk desired existing) =
      reconcile keyD keyE upd mk desired existing := by
  have hnd' := nodup_keys_reconcile keyD keyE upd mk hupdk hmkk desired hnd
  rw [reconcile_eq_of_nodup keyD keyE upd mk desired hnd']
  have hself : ∀ r ∈ reconcile keyD keyE upd mk desired existing,
      (match alookup (keyE r) (buildDict keyD desired) with
        | some d => some (upd d r)
        | none => none) = some r := by
    intro r hr
    rw [reconcile_eq_of_nodup keyD keyE upd mk desired hnd] at hr
    rcases List.mem_append.mp hr with hr' | hr'
    · obtain ⟨r₀, _, heq⟩ := List.mem_filterMap.mp hr'
      cases hlk : alookup (keyE r₀) (buildDict keyD desired) with
      | none => rw [hlk] at heq; simp at heq
      | some d =>
          rw [hlk] at heq
          simp only [Option.some.injEq] at heq
          subst heq
          rw [hupdk, hlk]
          simp [hupd2]
    · obtain ⟨kd, hkd, heq⟩ := List.mem_filterMap.mp hr'
      by_cases hm : kd.1 ∈ existing.map keyE
      · simp [hm] at heq
      · simp only [hm, if_false, Option.some.injEq] at heq
        subst heq
        rw [hmkk, ← (mem_buildDict_entries keyD hkd).1,
          alookup_of_mem_nodup (nodup_keys_buildDict keyD desired) hkd]
        simp [hmk2]
  have hkept : (reconcile keyD keyE upd mk desired existing).filterMap
      (fun r => match alookup (keyE r) (buildDict keyD desired) with
        | some d => some (upd d r)
        | none => none) = reconcile keyD keyE upd mk desired existing := by
    rw [List.filterMap_congr hself]
    exact List.filterMap_some _
  have happ : (buildDict keyD desired).filterMap
      (fun kd => if kd.1 ∈ (reconcile keyD keyE upd mk desired existing).map keyE
        then none else some (mk kd.2)) = [] := by
    rw [List.filterMap_eq_nil_iff]
    intro kd hkd
    have hmem : kd.1 ∈ (reconcile keyD keyE upd mk desired existing).map keyE := by
      rw [mem_keys_reconcile keyD keyE upd mk hupdk hmkk desired hnd kd.1]
      exact List.mem_map_of_mem Prod.fst hkd
    simp [hmem]
  rw [hkept, happ, List.append_nil]

end ReconcileLemmas2

section DictCongrLemmas

variable {K : Type} {α : Type} {β : Type} [DecidableEq K]

theorem exists_split_of_mem_keys {k : K} {d : List (K × α)} (h : k ∈ d.map Prod.fst) :
    ∃ l v r, d = l ++ (k, v) :: r ∧ k ∉ l.map Prod.fst := by
  induction d with
  | nil => simp at h
  | cons kv d ih =>
      by_cases hk : kv.1 = k
      · obtain ⟨a, b⟩ := kv
        simp only at hk
        subst hk
        exact ⟨[], b, d, rfl, by simp⟩
      · have h' : k ∈ d.map Prod.fst := by
          simp only [List.map_cons, List.mem_cons] at h
          rcases h with h | h
          · exact absurd h.symm hk
          · exact h
        obtain ⟨l, v, r, rfl, hnl⟩ := ih h'
        refine ⟨kv :: l, v, r, rfl, ?_⟩
        simp only [List.map_cons, List.mem_cons]
        push_neg
        exact ⟨fun hh => hk hh.symm, hnl⟩

theorem dictInsert_append_not_mem {j : K} {l : List (K × α)} (h : j ∉ l.map Prod.fst)
    (y : α) (d : List (K × α)) : dictInsert j y (l ++ d) = l ++ dictInsert j y d := by
  induction l with
  | nil => rfl
  | cons kv l ih =>
      simp only [List.map_cons, List.mem_cons] at h
      push_neg at h
      have hne : ¬(kv.1 = j) := fun hh => h.1 hh.symm
      simp [dictInsert, hne, ih h.2]

theorem dictInsert_append_mem {j : K} {l : List (K × α)} (h : j ∈ l.map Prod.fst)
    (y : α) (d : List (K × α)) : dictInsert j y (l ++ d) = dictInsert j y l ++ d := by
  induction l with
  | nil => simp at h
  | cons kv l ih =>
      by_cases hk : kv.1 = j
      · simp [dictInsert, hk]
      · simp only [List.map_cons, List.mem_cons] at h
        rcases h with h | h
        · exact absurd h.symm hk
        · simp [dictInsert, hk, ih h]

theorem dictInsert_eq_append_of_not_mem {k : K} {d : List (K × α)}
    (h : k ∉ d.map Prod.fst) (v : α) : dictInsert k v d = d ++ [(k, v)] := by
  induction d with
  | nil => rfl
  | cons kv d ih =>
      simp only [List.map_cons, List.mem_cons] at h
      push_neg at h
      have hne : ¬(kv.1 = k) := fun hh => h.1 hh.symm
      simp [dictInsert, hne, ih h.2]

theorem sameExceptAt_dictInsert_pair (k : K) (v₁ v₂ : α) (d : List (K × α)) :
    SameExceptAt k (dictInsert k v₁ d) (dictInsert k v₂ d) := by
  by_cases hm : k ∈ d.map Prod.fst
  · obtain ⟨l, v, r, rfl, hnl⟩ := exists_split_of_mem_keys hm
    rw [dictInsert_append_not_mem hnl, dictInsert_append_not_mem hnl]
    refine Or.inr ⟨l, v₁, v₂, r, ?_, ?_, hnl⟩
    · simp [dictInsert]
    · simp [dictInsert]
  · rw [dictInsert_eq_append_of_not_mem hm, dictInsert_eq_append_of_not_mem hm]
    exact Or.inr ⟨d, v₁, v₂, [], rfl, rfl, hm⟩

theorem sameExceptAt_dictInsert_self {k : K} {d₁ d₂ : List (K × α)}
    (h : SameExceptAt k d₁ d₂) (y : α) : dictInsert k y d₁ = dictInsert k y d₂ := by
  rcases h with rfl | ⟨l, v₁, v₂, r, rfl, rfl, hnl⟩
  · rfl
  · rw [dictInsert_append_not_mem hnl, dictInsert_append_not_mem hnl]
    simp [dictInsert]

theorem sameExceptAt_dictInsert {k j : K} {d₁ d₂ : List (K × α)}
    (h : SameExceptAt k d₁ d₂) (y : α) :
    SameExceptAt k (dictInsert j y d₁) (dictInsert j y d₂) := by
  rcases h with rfl | ⟨l, v₁, v₂, r, rfl, rfl, hnl⟩
  · exact Or.inl rfl
  · by_cases hjk : j = k
    · subst hjk
      exact Or.inl (sameExceptAt_dictInsert_self (Or.inr ⟨l, v₁, v₂, r, rfl, rfl, hnl⟩) y)
    · by_cases hjl : j ∈ l.map Prod.fst
      · rw [dictInsert_append_mem hjl, dictInsert_append_mem hjl]
        refine Or.inr ⟨dictInsert j y l, v₁, v₂, r, rfl, rfl, ?_⟩
        rw [keys_dictInsert_of_mem hjl]
        exact hnl
      · rw [dictInsert_append_not_mem hjl, dictInsert_append_not_mem hjl]
        have hkj : ¬(k = j) := fun hh => hjk hh.symm
        have h₁ : dictInsert j y ((k, v₁) :: r) = (k, v₁) :: dictInsert j y r := by
          simp [dictInsert, hkj]
        have h₂ : dictInsert j y ((k, v₂) :: r) = (k, v₂) :: dictInsert j y r := by
          simp [dictInsert, hkj]
        rw [h₁, h₂]
        exact Or.inr ⟨l, v₁, v₂, dictInsert j y r, rfl, rfl, hnl⟩

theorem foldl_sameExceptAt {k : K} (key : α → K) {xs : List α} (hmem : k ∈ xs.map key)
    {d₁ d₂ : List (K × α)} (h : SameExceptAt k d₁ d₂) :
    xs.foldl (fun d x => dictInsert (key x) x d) d₁ =
      xs.foldl (fun d x => dictInsert (key x) x d) d₂ := by
  induction xs generalizing d₁ d₂ with
  | nil => simp at hmem
  | cons x xs ih =>
      by_cases hx : key x = k
      · rw [List.foldl_cons, List.foldl_cons]
        have heq : dictInsert (key x) x d₁ = dictInsert (key x) x d₂ := by
          rw [hx]
          exact sameExceptAt_dictInsert_self h x
        rw [heq]
      · simp only [List.map_cons, List.mem_cons] at hmem
        rcases hmem with h' | hmem
        · exact absurd h'.symm hx
        · rw [List.foldl_cons, List.foldl_cons]
          exact ih hmem (sameExceptAt_dictInsert h x)

theorem buildDict_middle_congr (key : α → K) (xs₁ xs₂ : List α) {x x' : α}
    (hk : key x' = key x) (hmem : key x ∈ xs₂.map key) :
    buildDict key (xs₁ ++ x :: xs₂) = buildDict key (xs₁ ++ x' :: xs₂) := by
  unfold buildDict
  rw [List.foldl_append, List.foldl_append, List.foldl_cons, List.foldl_cons, hk]
  exact foldl_sameExceptAt key hmem
    (sameExceptAt_dictInsert_pair (key x) x x'
      (List.foldl (fun d y => dictInsert (key y) y d) [] xs₁))

theorem reconcile_desired_congr (keyD : α → K) (keyE : β → K) (upd : α → β → β) (mk : α → β)
    {desired desired' : List α} (h : buildDict keyD desired = buildDict keyD desired')
    (existing : List β) :
    reconcile keyD keyE upd mk desired existing =
      reconcile keyD keyE upd mk desired' existing := by
  unfold reconcile
  rw [h]

end DictCongrLemmas

section OperationLemmas

theorem alookup_dbSet_self {n : String} {c c₀ : CustomerState} {db : CustomerDB}
    (h : alookup n db = some c₀) : alookup n (dbSet n c db) = some c := by
  induction db with
  | nil => simp [alookup] at h
  | cons kv db ih =>
      by_cases hk : kv.1 = n
      · simp [dbSet, hk, alookup]
      · simp only [alookup, if_neg hk] at h
        simp only [dbSet, List.map_cons, if_neg hk]
        simp only [alookup, if_neg hk]
        exact ih h

theorem dbSet_dbSet (n : String) (c c' : CustomerState) (db : CustomerDB) :
    dbSet n c (dbSet n c' db) = dbSet n c db := by
  unfold dbSet
  rw [List.map_map]
  apply List.map_congr_left
  intro kv _
  by_cases hk : kv.1 = n <;> simp [hk]

theorem update_customer_found (vE vP : Option String → Bool) {db : CustomerDB} {p : Payload}
    {n : String} {c : CustomerState} (hn : p.customer_name = some n)
    (hc : alookup n db = some c) :
    update_customer vE vP db p =
      match Customer.validate vE vP (reconciledState p c) with
      | Except.error e => Except.error e
      | Except.ok _ =>
          Except.ok (dbSet n (reconciledState p c) db, "Customer updated successfully") := by
  unfold update_customer
  simp [hn, hc]

theorem validateEmails_ok_iff (vE : Option String → Bool) (l : List EmailRecord) :
    validateEmails vE l = Except.ok () ↔ ∀ r ∈ l, vE r.email = true := by
  induction l with
  | nil => simp [validateEmails]
  | cons x xs ih =>
      unfold validateEmails
      by_cases h : vE x.email
      · simp [h, ih]
      · simp [h]

theorem validatePhones_ok_iff (vP : Option String → Bool) (l : List PhoneRecord) :
    validatePhones vP l = Except.ok () ↔ ∀ r ∈ l, vP r.phone_number = true := by
  induction l with
  | nil => simp [validatePhones]
  | cons x xs ih =>
      unfold validatePhones
      by_cases h : vP x.phone_number
      · simp [h, ih]
      · simp [h]

theorem validateAddresses_ok_iff (l : List AddressRecord) :
    validateAddresses l = Except.ok () ↔
      ∀ r ∈ l, truthy r.address_line = true ∧ truthy r.city = true ∧ truthy r.state = true ∧
        truthy r.country = true ∧ truthy r.pincode = true := by
  induction l with
  | nil => simp [validateAddresses]
  | cons x xs ih =>
      unfold validateAddresses
      by_cases h1 : truthy x.address_line
      · by_cases h2 : truthy x.city
        · by_cases h3 : truthy x.state
          · by_cases h4 : truthy x.country
            · by_cases h5 : truthy x.pincode
              · simp [h1, h2, h3, h4, h5, ih]
              · simp [h1, h2, h3, h4, h5]
            · simp [h1, h2, h3, h4]
          · simp [h1, h2, h3]
        · simp [h1, h2]
      · simp [h1]

theorem customer_validate_ok_elim {vE vP : Option String → Bool} {c : CustomerState}
    (h : Customer.validate vE vP c = Except.ok ()) :
    validateEmails vE c.email = Except.ok () ∧ validatePhones vP c.phone_number = Except.ok () ∧
      validateAddresses c.address = Except.ok () := by
  unfold Customer.validate at h
  cases he : validateEmails vE c.email with
  | error e => simp [he] at h
  | ok u =>
      cases u
      simp only [he] at h
      cases hp : validatePhones vP c.phone_number with
      | error e => simp [hp] at h
      | ok u =>
          cases u
          simp only [hp] at h
          exact ⟨rfl, rfl, h⟩

theorem validateEmails_kind (vE : Option String → Bool) (l : List EmailRecord) :
    validateEmails vE l = Except.ok () ∨
      ∃ m, validateEmails vE l = Except.error (Err.ValidationError m) := by
  induction l with
  | nil => exact Or.inl rfl
  | cons x xs ih =>
      unfold validateEmails
      by_cases h : vE x.email
      · rw [if_pos h]
        exact ih
      · rw [if_neg h]
        exact Or.inr ⟨_, rfl⟩

theorem validatePhones_kind (vP : Option String → Bool) (l : List PhoneRecord) :
    validatePhones vP l = Except.ok () ∨
      ∃ m, validatePhones vP l = Except.error (Err.ValidationError m) := by
  induction l with
  | nil => exact Or.inl rfl
  | cons x xs ih =>
      unfold validatePhones
      by_cases h : vP x.phone_number
      · rw [if_pos h]
        exact ih
      · rw [if_neg h]
        exact Or.inr ⟨_, rfl⟩

theorem validateAddresses_kind (l : List AddressRecord) :
    validateAddresses l = Except.ok () ∨
      ∃ m, validateAddresses l = Except.error (Err.ValidationError m) := by
  induction l with
  | nil => exact Or.inl rfl
  | cons x xs ih =>
      unfold validateAddresses
      by_cases h1 : truthy x.address_line
      · by_cases h2 : truthy x.city
        · by_cases h3 : truthy x.state
          · by_cases h4 : truthy x.country
            · by_cases h5 : truthy x.pincode
              · simp only [h1, h2, h3, h4, h5, Bool.not_true, Bool.false_eq_true, if_false]
                exact ih
              · simp only [h1, h2, h3, h4, h5, Bool.not_true, Bool.not_false,
                  Bool.false_eq_true, if_false, if_true]
                exact Or.inr ⟨_, rfl⟩
            · simp only [h1, h2, h3, h4, Bool.not_true, Bool.not_false, Bool.false_eq_true,
                if_false, if_true]
              exact Or.inr ⟨_, rfl⟩
          · simp only [h1, h2, h3, Bool.not_true, Bool.not_false, Bool.false_eq_true,
              if_false, if_true]
            exact Or.inr ⟨_, rfl⟩
        · simp only [h1, h2, Bool.not_true, Bool.not_false, Bool.false_eq_true,
            if_false, if_true]
          exact Or.inr ⟨_, rfl⟩
      · simp only [h1, Bool.not_true, Bool.not_false, Bool.false_eq_true, if_false, if_true]
        exact Or.inr ⟨_, rfl⟩

theorem customer_validate_kind (vE vP : Option String → Bool) (c : CustomerState) :
    Customer.validate vE vP c = Except.ok () ∨
      ∃ m, Customer.validate vE vP c = Except.error (Err.ValidationError m) := by
  unfold Customer.validate
  rcases validateEmails_kind vE c.email with he | ⟨m, he⟩
  · rw [he]
    rcases validatePhones_kind vP c.phone_number with hp | ⟨m, hp⟩
    · rw [hp]
      exact validateAddresses_kind c.address
    · rw [hp]
      exact Or.inr ⟨m, rfl⟩
  · rw [he]
    exact Or.inr ⟨m, rfl⟩

end OperationLemmas

section CreateLemmas

theorem buildCreateEmails_kind (es : List EmailInput) :
    (∃ l, buildCreateEmails es = Except.ok l) ∨
      ∃ m, buildCreateEmails es = Except.error (Err.ValidationError m) := by
  induction es with
  | nil => exact Or.inl ⟨[], rfl⟩
  | cons x xs ih =>
      unfold buildCreateEmails
      by_cases h : truthy x.email_address
      · rw [if_pos h]
        rcases ih with ⟨l, hl⟩ | ⟨m, hm⟩
        · rw [hl]
          exact Or.inl ⟨_, rfl⟩
        · rw [hm]
          exact Or.inr ⟨m, rfl⟩
      · rw [if_neg h]
        exact Or.inr ⟨_, rfl⟩

theorem buildCreatePhones_kind (ps : List PhoneInput) :
    (∃ l, buildCreatePhones ps = Except.ok l) ∨
      ∃ m, buildCreatePhones ps = Except.error (Err.ValidationError m) := by
  induction ps with
  | nil => exact Or.inl ⟨[], rfl⟩
  | cons x xs ih =>
      unfold buildCreatePhones
      by_cases h : truthy x.phone_number
      · rw [if_pos h]
        rcases ih with ⟨l, hl⟩ | ⟨m, hm⟩
        · rw [hl]
          exact Or.inl ⟨_, rfl⟩
        · rw [hm]
          exact Or.inr ⟨m, rfl⟩
      · rw [if_neg h]
        exact Or.inr ⟨_, rfl⟩

theorem buildCreateAddresses_kind (as : List AddressInput) :
    (∃ l, buildCreateAddresses as = Except.ok l) ∨
      ∃ m, buildCreateAddresses as = Except.error (Err.ValidationError m) := by
  induction as with
  | nil => exact Or.inl ⟨[], rfl⟩
  | cons x xs ih =>
      unfold buildCreateAddresses
      by_cases h : (truthy x.address_line && truthy x.city && truthy x.pincode) = true
      · rw [if_pos h]
        rcases ih with ⟨l, hl⟩ | ⟨m, hm⟩
        · rw [hl]
          exact Or.inl ⟨_, rfl⟩
        · rw [hm]
          exact Or.inr ⟨m, rfl⟩
      · rw [if_neg h]
        exact Or.inr ⟨_, rfl⟩

theorem buildCreateAddresses_ok_elim {as : List AddressInput} {l : List AddressRecord}
    (h : buildCreateAddresses as = Except.ok l) :
    l = as.map mkCreateAddressRecord ∧
      ∀ a ∈ as, (truthy a.address_line && truthy a.city && truthy a.pincode) = true := by
  induction as generalizing l with
  | nil =>
      simp only [buildCreateAddresses, Except.ok.injEq] at h
      subst h
      simp
  | cons x xs ih =>
      unfold buildCreateAddresses at h
      by_cases hc : (truthy x.address_line && truthy x.city && truthy x.pincode) = true
      · rw [if_pos hc] at h
        cases hrec : buildCreateAddresses xs with
        | error e => rw [hrec] at h; simp at h
        | ok l' =>
            rw [hrec] at h
            simp only [Except.ok.injEq] at h
            subst h
            obtain ⟨h1, h2⟩ := ih hrec
            subst h1
            refine ⟨rfl, ?_⟩
            intro b hb
            rcases List.mem_cons.mp hb with rfl | hb'
            · exact hc
            · exact h2 b hb'
      · rw [if_neg hc] at h
        simp at h

theorem create_customer_kind (vE vP : Option String → Bool) (db : CustomerDB) (p : Payload) :
    (∃ pr, create_customer vE vP db p = Except.ok pr) ∨
      ∃ m, create_customer vE vP db p = Except.error (Err.ValidationError m) := by
  unfold create_customer
  by_cases htr : truthy p.customer_name
  · rw [if_pos htr]
    rcases buildCreateEmails_kind (p.emails.getD []) with ⟨es, hes⟩ | ⟨m, hm⟩
    · simp only [hes]
      rcases buildCreatePhones_kind (p.phone_numbers.getD []) with ⟨ps, hps⟩ | ⟨m, hm⟩
      · simp only [hps]
        rcases buildCreateAddresses_kind (p.addresses.getD []) with ⟨as, has⟩ | ⟨m, hm⟩
        · simp only [has]
          rcases customer_validate_kind vE vP (createdDoc p es ps as) with hv | ⟨m, hv⟩
          · simp only [hv]
            cases hn : p.customer_name with
            | none => exact Or.inr ⟨_, rfl⟩
            | some n =>
                cases hdb : alookup n db with
                | none =>
                    refine Or.inl ⟨(db ++ [(n, createdDoc p es ps as)],
                      "Customer created successfully"), ?_⟩
                    simp [hdb]
                | some c =>
                    refine Or.inr ⟨"Customer already existis", ?_⟩
                    simp [hdb]
          · simp only [hv]
            exact Or.inr ⟨m, rfl⟩
        · simp only [hm]
          exact Or.inr ⟨m, rfl⟩
      · simp only [hm]
        exact Or.inr ⟨m, rfl⟩
    · simp only [hm]
      exact Or.inr ⟨m, rfl⟩
  · rw [if_neg htr]
    exact Or.inr ⟨_, rfl⟩

theorem create_customer_ok_elim {vE vP : Option String → Bool} {db : CustomerDB} {p : Payload}
    {pr : CustomerDB × String} (h : create_customer vE vP db p = Except.ok pr) :
    ∃ es ps as, buildCreateEmails (p.emails.getD []) = Except.ok es ∧
      buildCreatePhones (p.phone_numbers.getD []) = Except.ok ps ∧
      buildCreateAddresses (p.addresses.getD []) = Except.ok as ∧
      Customer.validate vE vP (createdDoc p es ps as) = Except.ok () := by
  unfold create_customer at h
  by_cases htr : truthy p.customer_name
  · rw [if_pos htr] at h
    cases hes : buildCreateEmails (p.emails.getD []) with
    | error e => simp [hes] at h
    | ok es =>
        simp only [hes] at h
        cases hps : buildCreatePhones (p.phone_numbers.getD []) with
        | error e => simp [hps] at h
        | ok ps =>
            simp only [hps] at h
            cases has : buildCreateAddresses (p.addresses.getD []) with
            | error e => simp [has] at h
            | ok as =>
                simp only [has] at h
                cases hv : Customer.validate vE vP (createdDoc p es ps as) with
                | error e => simp [hv] at h
                | ok u =>
                    cases u
                    exact ⟨es, ps, as, rfl, rfl, rfl, hv⟩
  · rw [if_neg htr] at h
    simp at h

end CreateLemmas

section ReconcileLemmas3

variable {K : Type} {α : Type} {β : Type} [DecidableEq K]

theorem reconcile_append_new_mem (keyD : α → K) (keyE : β → K) (upd : α → β → β) (mk : α → β)
    {desired : List α} {existing : List β} {k : K}
    (hkd : k ∈ (buildDict keyD desired).map Prod.fst) (hkE : k ∉ existing.map keyE) :
    ∃ d, (k, d) ∈ buildDict keyD desired ∧
      mk d ∈ reconcile keyD keyE upd mk desired existing := by
  obtain ⟨kd, hkdmem, hfst⟩ := List.mem_map.mp hkd
  subst hfst
  refine ⟨kd.2, hkdmem, ?_⟩
  show mk kd.2 ∈ ((idxList 0 existing).filterMap (fun p =>
      match alookup (keyE p.2) (buildDict (fun q => keyE q.2) (idxList 0 existing)) with
      | some q =>
          if q.1 = p.1 then
            match alookup (keyE p.2) (buildDict keyD desired) with
            | some d => some (upd d p.2)
            | none => none
          else some p.2
      | none => some p.2))
    ++ ((buildDict keyD desired).filterMap (fun kd =>
      match alookup kd.1 (buildDict (fun q => keyE q.2) (idxList 0 existing)) with
      | some _ => none
      | none => some (mk kd.2)))
  apply List.mem_append_right
  apply List.mem_filterMap.mpr
  refine ⟨kd, hkdmem, ?_⟩
  have hnone : alookup kd.1 (buildDict (fun q => keyE q.2) (idxList 0 existing)) = none := by
    rw [alookup_eq_none_iff, mem_keys_buildDict, idxList_map_key]
    exact hkE
  rw [hnone]

end ReconcileLemmas3

/-- C7: an update payload whose `customer_name` matches no persisted customer
fails with `DoesNotExistError` (the source's `frappe.throw("Customer does not
exist", DoesNotExistError)` at line 134), and the store is left unchanged (the
transaction never commits). -/
theorem update_customer_not_found (vE vP : Option String → Bool) (db : CustomerDB)
    (p : Payload) (n : String) (hn : p.customer_name = some n)
    (hne : alookup n db = none) :
    update_customer vE vP db p = Except.error (Err.DoesNotExistError "Customer does not exist") ∧
      runUpdate vE vP p db = db := by
  have h : update_customer vE vP db p =
      Except.error (Err.DoesNotExistError "Customer does not exist") := by
    unfold update_customer
    simp [hn, hne]
  refine ⟨h, ?_⟩
  unfold runUpdate
  rw [h]

/-- Witness for C7 at a concrete store and payload: the store has no customer
named "Ghost". -/
theorem update_customer_not_found_witness :
    update_customer vTrue vTrue [] ghostPayload =
      Except.error (Err.DoesNotExistError "Customer does not exist") ∧
      runUpdate vTrue vTrue ghostPayload [] = [] :=
  update_customer_not_found vTrue vTrue [] ghostPayload "Ghost" rfl rfl

/-- C8: `manage_customer` routes POST to `create_customer`, PUT to
`update_customer`, and any other verb to `ValidationError` (customer.py lines
231-236). -/
theorem manage_customer_dispatch (vE vP : Option String → Bool) (db : CustomerDB)
    (p : Payload) (m : String) :
    manage_customer vE vP db "POST" (some p) = create_customer vE vP db p ∧
    manage_customer vE vP db "PUT" (some p) = update_customer vE vP db p ∧
    (m ≠ "POST" → m ≠ "PUT" →
      manage_customer vE vP db m (some p) =
        Except.error (Err.ValidationError "Invalid method")) := by
  refine ⟨rfl, rfl, ?_⟩
  intro h1 h2
  unfold manage_customer
  simp [h1, h2]

/-- Witness for C8 at the concrete verb "GET". -/
theorem manage_customer_dispatch_witness :
    manage_customer vTrue vTrue [] "POST" (some omittedListsPayload) =
      create_customer vTrue vTrue [] omittedListsPayload ∧
    manage_customer vTrue vTrue [] "PUT" (some omittedListsPayload) =
      update_customer vTrue vTrue [] omittedListsPayload ∧
    manage_customer vTrue vTrue [] "GET" (some omittedListsPayload) =
      Except.error (Err.ValidationError "Invalid method") := by
  obtain ⟨h1, h2, h3⟩ := manage_customer_dispatch vTrue vTrue [] omittedListsPayload "GET"
  exact ⟨h1, h2, h3 (by decide) (by decide)⟩

/-- C10 counterexample: for the same fully-populated address entry, the create
path appends a record tagged `"Customer Address"` (line 100) while the update
path's reconciler appends a record tagged `"Address"` (line 192), so the two
constructed child records are not equal. -/
theorem address_record_doctype_counterexample :
    buildCreateAddresses [sampleAddressInput] =
      Except.ok [mkCreateAddressRecord sampleAddressInput] ∧
    reconcileAddresses [sampleAddressInput] [] = [mkUpdateAddressRecord sampleAddressInput] ∧
    mkCreateAddressRecord sampleAddressInput ≠ mkUpdateAddressRecord sampleAddressInput :=
  ⟨rfl, rfl, by decide⟩

/-- C10 (amended): for an address entry with identical field values, the
record built by the create path and the record inserted by the update-path
reconciler agree on all five address fields, but their doctype tags differ:
the create path tags `"Customer Address"`, the update path tags `"Address"`. -/
theorem address_record_create_update_agree (a : AddressInput) :
    (mkCreateAddressRecord a).address_line = (mkUpdateAddressRecord a).address_line ∧
    (mkCreateAddressRecord a).city = (mkUpdateAddressRecord a).city ∧
    (mkCreateAddressRecord a).state = (mkUpdateAddressRecord a).state ∧
    (mkCreateAddressRecord a).country = (mkUpdateAddressRecord a).country ∧
    (mkCreateAddressRecord a).pincode = (mkUpdateAddressRecord a).pincode ∧
    (mkCreateAddressRecord a).doctype = "Customer Address" ∧
    (mkUpdateAddressRecord a).doctype = "Address" :=
  ⟨rfl, rfl, rfl, rfl, rfl, rfl, rfl⟩

/-- C3: an earlier payload entry whose identity key reappears later in the
list has no effect on the reconciled collection: its slot in the payload dict
is overwritten by the later entry (last-write-wins), so replacing the earlier
entry by any entry with the same key leaves the result of the reconciliation
unchanged, for each of the three child types. -/
theorem update_customer_last_write_wins
    (es₁ es₂ : List EmailInput) (e e' : EmailInput) (E : List EmailRecord)
    (ps₁ ps₂ : List PhoneInput) (f f' : PhoneInput) (P : List PhoneRecord)
    (as₁ as₂ : List AddressInput) (a a' : AddressInput) (A : List AddressRecord) :
    (e'.email_address = e.email_address →
      e.email_address ∈ es₂.map EmailInput.email_address →
      reconcileEmails (es₁ ++ e :: es₂) E = reconcileEmails (es₁ ++ e' :: es₂) E) ∧
    (f'.phone_number = f.phone_number →
      f.phone_number ∈ ps₂.map PhoneInput.phone_number →
      reconcilePhones (ps₁ ++ f :: ps₂) P = reconcilePhones (ps₁ ++ f' :: ps₂) P) ∧
    (addressInputKey a' = addressInputKey a →
      addressInputKey a ∈ as₂.map addressInputKey →
      reconcileAddresses (as₁ ++ a :: as₂) A = reconcileAddresses (as₁ ++ a' :: as₂) A) := by
  refine ⟨?_, ?_, ?_⟩ <;> intro hk hmem
  · exact reconcile_desired_congr _ _ _ _
      (buildDict_middle_congr EmailInput.email_address es₁ es₂ hk hmem) E
  · exact reconcile_desired_congr _ _ _ _
      (buildDict_middle_congr PhoneInput.phone_number ps₁ ps₂ hk hmem) P
  · exact reconcile_desired_congr _ _ _ _
      (buildDict_middle_congr addressInputKey as₁ as₂ hk hmem) A

/-- Witness for C3 at concrete duplicate-keyed payload lists. -/
theorem update_customer_last_write_wins_witness :
    reconcileEmails [{ email_address := some "a@x.y", is_primary := some 1 },
        { email_address := some "b@x.y", is_primary := some 1 },
        { email_address := some "b@x.y", is_primary := some 0 }] [johnEmail] =
      reconcileEmails [{ email_address := some "a@x.y", is_primary := some 1 },
        { email_address := some "b@x.y", is_primary := some 9 },
        { email_address := some "b@x.y", is_primary := some 0 }] [johnEmail] ∧
    reconcilePhones [{ phone_number := some "1", is_primary := some 1 },
        { phone_number := some "1", is_primary := some 0 }] [johnPhone] =
      reconcilePhones [{ phone_number := some "1", is_primary := some 5 },
        { phone_number := some "1", is_primary := some 0 }] [johnPhone] ∧
    reconcileAddresses [sampleAddressInput,
        { sampleAddressInput with state := some "NY" }] [johnAddress] =
      reconcileAddresses [{ sampleAddressInput with country := some "United States" },
        { sampleAddressInput with state := some "NY" }] [johnAddress] := by
  obtain ⟨h1, h2, h3⟩ := update_customer_last_write_wins
    [{ email_address := some "a@x.y", is_primary := some 1 }]
    [{ email_address := some "b@x.y", is_primary := some 0 }]
    { email_address := some "b@x.y", is_primary := some 1 }
    { email_address := some "b@x.y", is_primary := some 9 } [johnEmail]
    [] [{ phone_number := some "1", is_primary := some 0 }]
    { phone_number := some "1", is_primary := some 1 }
    { phone_number := some "1", is_primary := some 5 } [johnPhone]
    [] [{ sampleAddressInput with state := some "NY" }]
    sampleAddressInput
    { sampleAddressInput with country := some "United States" } [johnAddress]
  exact ⟨h1 (by decide) (by decide), h2 (by decide) (by decide), h3 (by decide) (by decide)⟩

/-- C2: for an identity key present in both the desired list and a
distinct-keyed existing collection, the reconciler stores back the matched
record with its identity fields and doctype untouched and only the designated
mutable fields overwritten from the desired entry (`is_primary` for
emails/phones; `state` and `country` for addresses): the stored record is the
literal record update of the existing one. -/
theorem update_customer_matched_frame
    (desE : List EmailInput) (E : List EmailRecord) (r : EmailRecord) (e : EmailInput)
    (desP : List PhoneInput) (P : List PhoneRecord) (q : PhoneRecord) (f : PhoneInput)
    (desA : List AddressInput) (A : List AddressRecord) (s : AddressRecord) (a : AddressInput) :
    ((E.map EmailRecord.email).Nodup → r ∈ E →
      alookup r.email (buildDict EmailInput.email_address desE) = some e →
      { r with is_primary := cint e.is_primary } ∈ reconcileEmails desE E) ∧
    ((P.map PhoneRecord.phone_number).Nodup → q ∈ P →
      alookup q.phone_number (buildDict PhoneInput.phone_number desP) = some f →
      { q with is_primary := cint f.is_primary } ∈ reconcilePhones desP P) ∧
    ((A.map addressRecordKey).Nodup → s ∈ A →
      alookup (addressRecordKey s) (buildDict addressInputKey desA) = some a →
      { s with state := a.state, country := a.country } ∈ reconcileAddresses desA A) := by
  refine ⟨?_, ?_, ?_⟩ <;> intro hnd hr hd
  · exact reconcile_matched_mem EmailInput.email_address EmailRecord.email
      updEmailRecord mkUpdateEmailRecord desE hnd hr hd
  · exact reconcile_matched_mem PhoneInput.phone_number PhoneRecord.phone_number
      updPhoneRecord mkUpdatePhoneRecord desP hnd hr hd
  · exact reconcile_matched_mem addressInputKey addressRecordKey
      updAddressRecord mkUpdateAddressRecord desA hnd hr hd

/-- Witness for C2 at concrete matched records of all three child types. -/
theorem update_customer_matched_frame_witness :
    ({ johnEmail with is_primary := cint (some 0) } ∈
      reconcileEmails [{ email_address := some "john@gmail.com", is_primary := some 0 }]
        [johnEmail]) ∧
    ({ johnPhone with is_primary := cint (some 0) } ∈
      reconcilePhones [{ phone_number := some "123456789", is_primary := some 0 }]
        [johnPhone]) ∧
    ({ johnAddress with state := some "NY", country := some "US" } ∈
      reconcileAddresses [{ sampleAddressInput with state := some "NY", country := some "US" }]
        [johnAddress]) := by
  obtain ⟨h1, h2, h3⟩ := update_customer_matched_frame
    [{ email_address := some "john@gmail.com", is_primary := some 0 }] [johnEmail] johnEmail
    { email_address := some "john@gmail.com", is_primary := some 0 }
    [{ phone_number := some "123456789", is_primary := some 0 }] [johnPhone] johnPhone
    { phone_number := some "123456789", is_primary := some 0 }
    [{ sampleAddressInput with state := some "NY", country := some "US" }] [johnAddress]
    johnAddress { sampleAddressInput with state := some "NY", country := some "US" }
  exact ⟨h1 (by decide) (by decide) (by decide), h2 (by decide) (by decide) (by decide),
    h3 (by decide) (by decide) (by decide)⟩

/-- C9: a payload entry with no `email_address` (resp. no `phone_number`) is
keyed by `None` in the payload dict and causes no error at the reconciliation
step (the reconcilers are total functions); if no existing record carries the
`None` key, a new child record whose identity field is `None` is appended. -/
theorem update_customer_none_key_append
    (es : List EmailInput) (E : List EmailRecord) (e : EmailInput)
    (ps : List PhoneInput) (P : List PhoneRecord) (f : PhoneInput) :
    (e ∈ es → e.email_address = none → none ∉ E.map EmailRecord.email →
      none ∈ (buildDict EmailInput.email_address es).map Prod.fst ∧
      ∃ r, r ∈ reconcileEmails es E ∧ r.email = none ∧ r.doctype = "Customer Email") ∧
    (f ∈ ps → f.phone_number = none → none ∉ P.map PhoneRecord.phone_number →
      none ∈ (buildDict PhoneInput.phone_number ps).map Prod.fst ∧
      ∃ r, r ∈ reconcilePhones ps P ∧ r.phone_number = none ∧ r.doctype = "Customer Phone") := by
  constructor
  · intro he hkey hE
    have hkd : (none : Option String) ∈
        (buildDict EmailInput.email_address es).map Prod.fst := by
      rw [mem_keys_buildDict]
      exact List.mem_map.mpr ⟨e, he, hkey⟩
    refine ⟨hkd, ?_⟩
    obtain ⟨d, hdmem, hrmem⟩ := reconcile_append_new_mem EmailInput.email_address
      EmailRecord.email updEmailRecord mkUpdateEmailRecord hkd hE
    refine ⟨mkUpdateEmailRecord d, hrmem, ?_, rfl⟩
    exact ((mem_buildDict_entries EmailInput.email_address hdmem).1).symm
  · intro hf hkey hP
    have hkd : (none : Option String) ∈
        (buildDict PhoneInput.phone_number ps).map Prod.fst := by
      rw [mem_keys_buildDict]
      exact List.mem_map.mpr ⟨f, hf, hkey⟩
    refine ⟨hkd, ?_⟩
    obtain ⟨d, hdmem, hrmem⟩ := reconcile_append_new_mem PhoneInput.phone_number
      PhoneRecord.phone_number updPhoneRecord mkUpdatePhoneRecord hkd hP
    refine ⟨mkUpdatePhoneRecord d, hrmem, ?_, rfl⟩
    exact ((mem_buildDict_entries PhoneInput.phone_number hdmem).1).symm

/-- Witness for C9 at concrete keyless email and phone entries. -/
theorem update_customer_none_key_append_witness :
    ((none : Option String) ∈ (buildDict EmailInput.email_address
        [{ email_address := none, is_primary := some 1 }]).map Prod.fst ∧
      ∃ r, r ∈ reconcileEmails [{ email_address := none, is_primary := some 1 }] [johnEmail] ∧
        r.email = none ∧ r.doctype = "Customer Email") ∧
    ((none : Option String) ∈ (buildDict PhoneInput.phone_number
        [{ phone_number := none, is_primary := none }]).map Prod.fst ∧
      ∃ r, r ∈ reconcilePhones [{ phone_number := none, is_primary := none }] [johnPhone] ∧
        r.phone_number = none ∧ r.doctype = "Customer Phone") := by
  obtain ⟨h1, h2⟩ := update_customer_none_key_append
    [{ email_address := none, is_primary := some 1 }] [johnEmail]
    { email_address := none, is_primary := some 1 }
    [{ phone_number := none, is_primary := none }] [johnPhone]
    { phone_number := none, is_primary := none }
  exact ⟨h1 (by decide) rfl (by decide), h2 (by decide) rfl (by decide)⟩

/-- C1 counterexample: a persisted customer reachable through
`create_customer` (which appends duplicate-keyed entries without
de-duplication) holds two email records with the same identity key; updating
it with an explicitly empty desired email list succeeds but leaves one email
record behind — the dict over the existing collection holds only the last
duplicate, so `customer_doc.remove` deletes only that object.  The persisted
key set is then not equal to the (empty) desired key set. -/
theorem update_customer_key_set_counterexample :
    update_customer vTrue vTrue dupDB emptyListsPayload =
      Except.ok ([("John Doe", dupCustomerAfterOnce)], "Customer updated successfully") ∧
    (buildDict EmailInput.email_address (emptyListsPayload.emails.getD [])).map Prod.fst =
      [] ∧
    dupCustomerAfterOnce.email.map EmailRecord.email = [some "john@gmail.com"] :=
  ⟨rfl, rfl, rfl⟩

/-- C1 (amended): when every child collection of the existing persisted
customer has pairwise-distinct identity keys, a successful `update_customer`
leaves each persisted child collection with exactly the key set of the payload
dict built from the corresponding desired list. -/
theorem update_customer_key_set_eq (vE vP : Option String → Bool) (db : CustomerDB)
    (p : Payload) (n : String) (c : CustomerState) (db' : CustomerDB) (msg : String)
    (hn : p.customer_name = some n) (hc : alookup n db = some c) (hdk : distinctKeys c)
    (hok : update_customer vE vP db p = Except.ok (db', msg)) :
    ∃ c', alookup n db' = some c' ∧
      (∀ k, k ∈ c'.email.map EmailRecord.email ↔
        k ∈ (buildDict EmailInput.email_address (p.emails.getD [])).map Prod.fst) ∧
      (∀ k, k ∈ c'.phone_number.map PhoneRecord.phone_number ↔
        k ∈ (buildDict PhoneInput.phone_number (p.phone_numbers.getD [])).map Prod.fst) ∧
      (∀ k, k ∈ c'.address.map addressRecordKey ↔
        k ∈ (buildDict addressInputKey (p.addresses.getD [])).map Prod.fst) := by
  rw [update_customer_found vE vP hn hc] at hok
  cases hval : Customer.validate vE vP (reconciledState p c) with
  | error e => rw [hval] at hok; simp at hok
  | ok u =>
      cases u
      rw [hval] at hok
      simp only [Except.ok.injEq, Prod.mk.injEq] at hok
      obtain ⟨hdb, hmsg⟩ := hok
      refine ⟨reconciledState p c, ?_, ?_, ?_, ?_⟩
      · rw [← hdb]
        exact alookup_dbSet_self hc
      · intro k
        exact mem_keys_reconcile EmailInput.email_address EmailRecord.email updEmailRecord
          mkUpdateEmailRecord (fun _ _ => rfl) (fun _ => rfl) (p.emails.getD []) hdk.1 k
      · intro k
        exact mem_keys_reconcile PhoneInput.phone_number PhoneRecord.phone_number
          updPhoneRecord mkUpdatePhoneRecord (fun _ _ => rfl) (fun _ => rfl)
          (p.phone_numbers.getD []) hdk.2.1 k
      · intro k
        exact mem_keys_reconcile addressInputKey addressRecordKey updAddressRecord
          mkUpdateAddressRecord (fun _ _ => rfl) (fun _ => rfl) (p.addresses.getD [])
          hdk.2.2 k

/-- Witness for C1 (amended) at the repository's own update scenario. -/
theorem update_customer_key_set_eq_witness :
    ∃ c', alookup "John Doe" [("John Doe", johnAfterUpdate)] = some c' ∧
      (∀ k, k ∈ c'.email.map EmailRecord.email ↔
        k ∈ (buildDict EmailInput.email_address (updPayload.emails.getD [])).map Prod.fst) ∧
      (∀ k, k ∈ c'.phone_number.map PhoneRecord.phone_number ↔
        k ∈ (buildDict PhoneInput.phone_number
          (updPayload.phone_numbers.getD [])).map Prod.fst) ∧
      (∀ k, k ∈ c'.address.map addressRecordKey ↔
        k ∈ (buildDict addressInputKey (updPayload.addresses.getD [])).map Prod.fst) :=
  update_customer_key_set_eq vTrue vTrue johnDB updPayload "John Doe" johnState
    [("John Doe", johnAfterUpdate)] "Customer updated successfully" rfl rfl (by decide) rfl

/-- C5 counterexample: with the duplicate-keyed persisted customer, an update
payload that omits the email list succeeds but does not leave the email
collection empty — only the dict representative of the duplicated key is
removed. -/
theorem update_customer_omitted_list_counterexample :
    omittedListsPayload.emails = none ∧
    update_customer vTrue vTrue dupDB omittedListsPayload =
      Except.ok ([("John Doe", dupCustomerAfterOnce)], "Customer updated successfully") ∧
    dupCustomerAfterOnce.email ≠ [] :=
  ⟨rfl, rfl, by decide⟩

/-- C5 (amended): when the existing child collections have pairwise-distinct
identity keys, a child list omitted from the payload is treated as desired =
empty and the corresponding persisted collection is empty after a successful
update. -/
theorem update_customer_omitted_list_empties (vE vP : Option String → Bool) (db : CustomerDB)
    (p : Payload) (n : String) (c : CustomerState) (db' : CustomerDB) (msg : String)
    (hn : p.customer_name = some n) (hc : alookup n db = some c) (hdk : distinctKeys c)
    (hok : update_customer vE vP db p = Except.ok (db', msg)) :
    ∃ c', alookup n db' = some c' ∧
      (p.emails = none → c'.email = []) ∧
      (p.phone_numbers = none → c'.phone_number = []) ∧
      (p.addresses = none → c'.address = []) := by
  rw [update_customer_found vE vP hn hc] at hok
  cases hval : Customer.validate vE vP (reconciledState p c) with
  | error e => rw [hval] at hok; simp at hok
  | ok u =>
      cases u
      rw [hval] at hok
      simp only [Except.ok.injEq, Prod.mk.injEq] at hok
      obtain ⟨hdb, hmsg⟩ := hok
      refine ⟨reconciledState p c, ?_, ?_, ?_, ?_⟩
      · rw [← hdb]
        exact alookup_dbSet_self hc
      · intro h0
        show reconcileEmails (p.emails.getD []) c.email = []
        rw [h0, Option.getD_none]
        exact reconcile_nil_of_nodup EmailInput.email_address EmailRecord.email
          updEmailRecord mkUpdateEmailRecord hdk.1
      · intro h0
        show reconcilePhones (p.phone_numbers.getD []) c.phone_number = []
        rw [h0, Option.getD_none]
        exact reconcile_nil_of_nodup PhoneInput.phone_number PhoneRecord.phone_number
          updPhoneRecord mkUpdatePhoneRecord hdk.2.1
      · intro h0
        show reconcileAddresses (p.addresses.getD []) c.address = []
        rw [h0, Option.getD_none]
        exact reconcile_nil_of_nodup addressInputKey addressRecordKey
          updAddressRecord mkUpdateAddressRecord hdk.2.2

/-- Witness for C5 (amended): the well-formed customer updated with a payload
omitting every child list ends with all three collections empty. -/
theorem update_customer_omitted_list_empties_witness :
    ∃ c', alookup "John Doe" [("John Doe", johnEmptied)] = some c' ∧
      (omittedListsPayload.emails = none → c'.email = []) ∧
      (omittedListsPayload.phone_numbers = none → c'.phone_number = []) ∧
      (omittedListsPayload.addresses = none → c'.address = []) :=
  update_customer_omitted_list_empties vTrue vTrue johnDB omittedListsPayload "John Doe"
    johnState [("John Doe", johnEmptied)] "Customer updated successfully" rfl rfl
    (by decide) rfl

/-- C4 counterexample: on the duplicate-keyed persisted customer, applying the
same update payload (desired email list empty) twice does not equal applying
it once: the first application removes only the dict representative of the
duplicated key, the second removes the remaining record. -/
theorem update_customer_idempotent_counterexample :
    runUpdate vTrue vTrue emptyListsPayload (runUpdate vTrue vTrue emptyListsPayload dupDB) ≠
      runUpdate vTrue vTrue emptyListsPayload dupDB := by
  decide

/-- C4 (amended): when the targeted customer's child collections have
pairwise-distinct identity keys, applying the same update payload twice
yields the same persisted store as applying it once (a failed update leaves
the store unchanged, so the failing cases are idempotent as well). -/
theorem update_customer_idempotent (vE vP : Option String → Bool) (db : CustomerDB)
    (p : Payload)
    (hdk : ∀ n c, p.customer_name = some n → alookup n db = some c → distinctKeys c) :
    runUpdate vE vP p (runUpdate vE vP p db) = runUpdate vE vP p db := by
  cases hn : p.customer_name with
  | none =>
      have h1 : update_customer vE vP db p =
          Except.error (Err.DoesNotExistError "Customer does not exist") := by
        unfold update_customer
        rw [hn]
      have hr : runUpdate vE vP p db = db := by
        unfold runUpdate
        rw [h1]
      rw [hr]
      exact hr
  | some n =>
      cases hc : alookup n db with
      | none =>
          have hr := (update_customer_not_found vE vP db p n hn hc).2
          rw [hr]
          exact hr
      | some c =>
          obtain ⟨hdk1, hdk2, hdk3⟩ := hdk n c hn hc
          cases hval : Customer.validate vE vP (reconciledState p c) with
          | error e =>
              have h1 : update_customer vE vP db p = Except.error e := by
                rw [update_customer_found vE vP hn hc, hval]
              have hr : runUpdate vE vP p db = db := by
                unfold runUpdate
                rw [h1]
              rw [hr]
              exact hr
          | ok u =>
              cases u
              have h1 : update_customer vE vP db p =
                  Except.ok (dbSet n (reconciledState p c) db,
                    "Customer updated successfully") := by
                rw [update_customer_found vE vP hn hc, hval]
              have hr1 : runUpdate vE vP p db = dbSet n (reconciledState p c) db := by
                unfold runUpdate
                rw [h1]
              have hc2 : alookup n (dbSet n (reconciledState p c) db) =
                  some (reconciledState p c) := alookup_dbSet_self hc
              have he : reconcileEmails (p.emails.getD []) (reconciledState p c).email =
                  (reconciledState p c).email :=
                reconcile_idem EmailInput.email_address EmailRecord.email updEmailRecord
                  mkUpdateEmailRecord (fun _ _ => rfl) (fun _ => rfl) (fun _ _ => rfl)
                  (fun _ => rfl) (p.emails.getD []) hdk1
              have hph : reconcilePhones (p.phone_numbers.getD [])
                  (reconciledState p c).phone_number = (reconciledState p c).phone_number :=
                reconcile_idem PhoneInput.phone_number PhoneRecord.phone_number updPhoneRecord
                  mkUpdatePhoneRecord (fun _ _ => rfl) (fun _ => rfl) (fun _ _ => rfl)
                  (fun _ => rfl) (p.phone_numbers.getD []) hdk2
              have ha : reconcileAddresses (p.addresses.getD [])
                  (reconciledState p c).address = (reconciledState p c).address :=
                reconcile_idem addressInputKey addressRecordKey updAddressRecord
                  mkUpdateAddressRecord (fun _ _ => rfl) (fun _ => rfl) (fun _ _ => rfl)
                  (fun _ => rfl) (p.addresses.getD []) hdk3
              have hrec : reconciledState p (reconciledState p c) = reconciledState p c := by
                show ({ reconciledState p c with
                    email := reconcileEmails (p.emails.getD []) (reconciledState p c).email,
                    phone_number := reconcilePhones (p.phone_numbers.getD [])
                      (reconciledState p c).phone_number,
                    address := reconcileAddresses (p.addresses.getD [])
                      (reconciledState p c).address } : CustomerState) = reconciledState p c
                rw [he, hph, ha]
              have h2 : update_customer vE vP (dbSet n (reconciledState p c) db) p =
                  Except.ok (dbSet n (reconciledState p c)
                      (dbSet n (reconciledState p c) db),
                    "Customer updated successfully") := by
                rw [update_customer_found vE vP hn hc2, hrec, hval]
              have hr2 : runUpdate vE vP p (dbSet n (reconciledState p c) db) =
                  dbSet n (reconciledState p c) (dbSet n (reconciledState p c) db) := by
                unfold runUpdate
                rw [h2]
              rw [hr1, hr2, dbSet_dbSet]

/-- Witness for C4 (amended) at the repository's own update scenario. -/
theorem update_customer_idempotent_witness :
    runUpdate vTrue vTrue updPayload (runUpdate vTrue vTrue updPayload johnDB) =
      runUpdate vTrue vTrue updPayload johnDB :=
  update_customer_idempotent vTrue vTrue johnDB updPayload (by
    intro n c hn hc
    have hn' : n = "John Doe" := by
      have h0 : some "John Doe" = some n := hn
      exact (Option.some_injective _ h0).symm
    subst hn'
    have hc' : c = johnState := by
      have h0 : alookup "John Doe" johnDB = some c := hc
      rw [show alookup "John Doe" johnDB = some johnState from rfl] at h0
      exact (Option.some_injective _ h0).symm
    subst hc'
    decide)

/-- C6: a create payload containing an address entry with any of the five
address fields missing fails with a `ValidationError` (either at the
create-path append check for `address_line`/`city`/`pincode`, or at
`Customer.validate` during insert for `state`/`country`), and no customer is
persisted: `create_customer` returns an error, so no store commit happens. -/
theorem create_customer_address_missing_field_fails (vE vP : Option String → Bool)
    (db : CustomerDB) (p : Payload) (as : List AddressInput) (a : AddressInput)
    (has : p.addresses = some as) (ha : a ∈ as)
    (hmiss : a.address_line = none ∨ a.city = none ∨ a.state = none ∨ a.country = none ∨
      a.pincode = none) :
    ∃ m, create_customer vE vP db p = Except.error (Err.ValidationError m) := by
  rcases create_customer_kind vE vP db p with ⟨pr, hok⟩ | hv
  · exfalso
    obtain ⟨es, ps, as', hes, hps, has', hval⟩ := create_customer_ok_elim hok
    rw [has, Option.getD_some] at has'
    obtain ⟨hshape, hallb⟩ := buildCreateAddresses_ok_elim has'
    have hb := hallb a ha
    have hb' : (truthy a.address_line = true ∧ truthy a.city = true) ∧
        truthy a.pincode = true := by
      simpa using hb
    obtain ⟨⟨hline, hcity⟩, hpin⟩ := hb'
    have hva := (customer_validate_ok_elim hval).2.2
    rw [validateAddresses_ok_iff] at hva
    have hmem : mkCreateAddressRecord a ∈ (createdDoc p es ps as').address := by
      show mkCreateAddressRecord a ∈ as'
      rw [hshape]
      exact List.mem_map_of_mem mkCreateAddressRecord ha
    rcases hmiss with h | h | h | h | h
    · rw [h] at hline
      exact absurd hline (by decide)
    · rw [h] at hcity
      exact absurd hcity (by decide)
    · have hst := (hva _ hmem).2.2.1
      rw [show (mkCreateAddressRecord a).state = a.state from rfl, h] at hst
      exact absurd hst (by decide)
    · have hco := (hva _ hmem).2.2.2.1
      rw [show (mkCreateAddressRecord a).country = a.country from rfl, h] at hco
      exact absurd hco (by decide)
    · rw [h] at hpin
      exact absurd hpin (by decide)
  · exact hv

/-- Witness for C6 at a concrete create payload whose single address entry is
missing `state`. -/
theorem create_customer_address_missing_field_fails_witness :
    ∃ m, create_customer vTrue vTrue [] badAddressPayload =
      Except.error (Err.ValidationError m) :=
  create_customer_address_missing_field_fails vTrue vTrue [] badAddressPayload
    [missingStateAddress] missingStateAddress rfl (by decide)
    (Or.inr (Or.inr (Or.inl rfl)))
